import Mathlib

/-!
# ANNet GPGPU: elementwise functors, SOM partition/merge, training loop

A shallow embedding of the numeric functors of `gpgpu/Functors.h`, of the
plot-data scan of `MainWindow::sl_startTraining`, and of the engine operations
that the sources only declare or call (partitioning, BMU merge, training loop,
persistence).  Where a statement is about exact arithmetic, `float` values are
embedded as exact rationals; where rounding, overflow or NaN decide it, they
are embedded as binary32 values (`F32`).
-/

set_option autoImplicit false

namespace ANNet

/-! ## `gpgpu/Functors.h` -/

/-- The functor `sAXpY_functor`: `operator()(x, y)` returns `a * x + y`. -/
def sAXpY_functor (a : ℚ) (x y : ℚ) : ℚ :=
  a * x + y

/-- The functor `sAX_functor`: `operator()(x)` returns `a * x`. -/
def sAX_functor (a : ℚ) (x : ℚ) : ℚ :=
  a * x

/-- The functor `sAXmY_functor`: `operator()(x, y)` returns `a * (x - y)`. -/
def sAXmY_functor (a : ℚ) (x y : ℚ) : ℚ :=
  a * (x - y)

/-- The functor `sXmAmY_functor`: `operator()(x, y)` returns `x - (a - y)`. -/
def sXmAmY_functor (a : ℚ) (x y : ℚ) : ℚ :=
  x - (a - y)

/-- The functor `spowAmXpY_functor`: `operator()(x, y)` returns `pow(a-x, 2) + y`. -/
def spowAmXpY_functor (a : ℚ) (x y : ℚ) : ℚ :=
  (a - x) ^ 2 + y

/-- The functor `hebbian_functor`, read in exact arithmetic:
`operator()(fWeight, fInfluence)` returns
`fWeight + (fInfluence*fLearningRate*(fInput-fWeight))`. -/
def hebbian_functor (fLearningRate fInput : ℚ) (fWeight fInfluence : ℚ) : ℚ :=
  fWeight + (fInfluence * fLearningRate * (fInput - fWeight))

/-- Accumulation of `spowAmXpY_functor` over the `n` components of an input
vector `a` against a weight vector `x`: pass `i` transforms the accumulator
`acc` into `spowAmXpY_functor (a i) (x i) acc`. -/
def distanceFold {n : Nat} (a x : Fin n → ℚ) (acc : ℚ) : ℚ :=
  (List.finRange n).foldl (fun y i => spowAmXpY_functor (a i) (x i) y) acc


/-- The functions that `gpgpu/Functors.h` calls but does not define: `sqrt`
and the five neighborhood kernels of `math/Functions.h`
(`ANN::fcn_bubble_nhood` and its siblings), each taking
`(distance, sigmaT)`. -/
structure NhoodFunctions (F : Type) where
  sqrt : F → F
  fcn_bubble_nhood : F → F → F
  fcn_gaussian_nhood : F → F → F
  fcn_cutgaussian_nhood : F → F → F
  fcn_mexican_nhood : F → F → F
  fcn_epanechicov_nhood : F → F → F

/-- The functor `sm13bubble_functor`: `operator()(dist)` returns
`ANN::fcn_bubble_nhood(sqrt(dist), fSigmaT)`. -/
def sm13bubble_functor {F : Type} (K : NhoodFunctions F) (fSigmaT : F) (dist : F) : F :=
  K.fcn_bubble_nhood (K.sqrt dist) fSigmaT

/-- The functor `sm13gaussian_functor`: `operator()(dist)` returns
`ANN::fcn_gaussian_nhood(sqrt(dist), fSigmaT)`. -/
def sm13gaussian_functor {F : Type} (K : NhoodFunctions F) (fSigmaT : F) (dist : F) : F :=
  K.fcn_gaussian_nhood (K.sqrt dist) fSigmaT

/-- The functor `sm13cut_gaussian_functor`: `operator()(dist)` returns
`ANN::fcn_cutgaussian_nhood(sqrt(dist), fSigmaT)`. -/
def sm13cut_gaussian_functor {F : Type} (K : NhoodFunctions F) (fSigmaT : F) (dist : F) : F :=
  K.fcn_cutgaussian_nhood (K.sqrt dist) fSigmaT

/-- The functor `sm13mexican_functor`: `operator()(dist)` returns
`ANN::fcn_mexican_nhood(sqrt(dist), fSigmaT)`. -/
def sm13mexican_functor {F : Type} (K : NhoodFunctions F) (fSigmaT : F) (dist : F) : F :=
  K.fcn_mexican_nhood (K.sqrt dist) fSigmaT

/-- The functor `sm13epanechicov_functor`: `operator()(dist)` returns
`ANN::fcn_epanechicov_nhood(sqrt(dist), fSigmaT)`. -/
def sm13epanechicov_functor {F : Type} (K : NhoodFunctions F) (fSigmaT : F) (dist : F) : F :=
  K.fcn_epanechicov_nhood (K.sqrt dist) fSigmaT

/-- Integer square root by counting: the number of `k ≥ 1` with `k*k ≤ n`. -/
def isqrt (n : Nat) : Nat :=
  ((List.range (n + 1)).filter (fun k => decide (0 < k ∧ k * k ≤ n))).length

/-- A concrete instance of the missing functions over the naturals, used to
evaluate the functors: integer square root, and indicator-style kernels. -/
def natKernels : NhoodFunctions Nat where
  sqrt := isqrt
  fcn_bubble_nhood := fun d s => if d ≤ s then 1 else 0
  fcn_gaussian_nhood := fun d s => s - d
  fcn_cutgaussian_nhood := fun d s => if d ≤ s then s - d else 0
  fcn_mexican_nhood := fun d s => (s - d) * (s + d)
  fcn_epanechicov_nhood := fun d s => if d ≤ s then s * s - d * d else 0

/-! ## binary32 arithmetic -/

/-- A binary32 (`float`) value.  Every finite binary32 value is an integer
multiple of the smallest subnormal `2^(-149)`: `finite k` is `k * 2^(-149)`.
The two zeros are identified (`+`, `-`, `*`, `<` and `<=` do not tell them
apart). -/
inductive F32 where
  | finite (k : Int)
  | inf (negative : Bool)
  | nan
  deriving DecidableEq

/-- The number of binary digits of `a`, computed with `fuel` halvings. -/
def bitLengthAux : Nat → Nat → Nat
  | 0, _ => 0
  | fuel + 1, a => if a = 0 then 0 else bitLengthAux fuel (a / 2) + 1

/-- The number of binary digits of `a` (`0` for `0`). -/
def bitLength (a : Nat) : Nat :=
  bitLengthAux a a

/-- The integer nearest to `a / 2^d`, ties going to the even one. -/
def roundShift (a d : Nat) : Nat :=
  if d = 0 then a
  else if 2 ^ (d - 1) < a % 2 ^ d ∨ (a % 2 ^ d = 2 ^ (d - 1) ∧ (a / 2 ^ d) % 2 = 1) then
    a / 2 ^ d + 1
  else a / 2 ^ d

/-- Rounding of the exact value `n / 2^s` to binary32, round-to-nearest,
ties-to-even: the value keeps 24 significant bits, but no bit below
`2^(-149)` (subnormals), and a rounded magnitude of `2^128` or more overflows
to an infinity. -/
def roundF32 (n : Int) (s : Nat) : F32 :=
  if n.natAbs = 0 then .finite 0
  else
    let d := max (bitLength n.natAbs - 24) (s - 149)
    let k := roundShift n.natAbs d * 2 ^ (d + 149 - s)
    if 2 ^ 277 ≤ k then .inf (decide (n < 0))
    else .finite (if n < 0 then -(k : Int) else (k : Int))

/-- The binary32 value nearest to the integer `n`. -/
def F32.ofInt (n : Int) : F32 :=
  roundF32 n 0

/-- Negation of a binary32 value. -/
def F32.neg : F32 → F32
  | .finite k => .finite (-k)
  | .inf negative => .inf (!negative)
  | .nan => .nan

/-- The binary32 sum: the exact sum, rounded; `inf + (-inf)` is NaN. -/
def F32.add : F32 → F32 → F32
  | .finite a, .finite b => roundF32 (a + b) 149
  | .finite _, .inf b => .inf b
  | .inf a, .finite _ => .inf a
  | .inf a, .inf b => if a = b then .inf a else .nan
  | .nan, _ => .nan
  | _, .nan => .nan

/-- The binary32 difference `a - b`. -/
def F32.sub (a b : F32) : F32 :=
  F32.add a (F32.neg b)

/-- The binary32 product: the exact product, rounded; `0 * inf` is NaN. -/
def F32.mul : F32 → F32 → F32
  | .finite a, .finite b => roundF32 (a * b) 298
  | .finite a, .inf b => if a = 0 then .nan else .inf (xor (decide (a < 0)) b)
  | .inf a, .finite b => if b = 0 then .nan else .inf (xor a (decide (b < 0)))
  | .inf a, .inf b => .inf (xor a b)
  | .nan, _ => .nan
  | _, .nan => .nan

/-- The comparison `a < b` of binary32 values; false when either is NaN. -/
def F32.lt : F32 → F32 → Bool
  | .finite a, .finite b => decide (a < b)
  | .finite _, .inf b => !b
  | .inf a, .finite _ => a
  | .inf a, .inf b => a && !b
  | .nan, _ => false
  | _, .nan => false

/-- The comparison `a <= b` of binary32 values; false when either is NaN. -/
def F32.le : F32 → F32 → Bool
  | .finite a, .finite b => decide (a ≤ b)
  | .finite _, .inf b => !b
  | .inf a, .finite _ => a
  | .inf a, .inf b => a || !b
  | .nan, _ => false
  | _, .nan => false

/-- The functor `hebbian_functor` in binary32, every operation rounded:
`fWeight + (fInfluence*fLearningRate*(fInput-fWeight))`. -/
def hebbian_functor_f32 (fLearningRate fInput : F32) (fWeight fInfluence : F32) : F32 :=
  F32.add fWeight (F32.mul (F32.mul fInfluence fLearningRate) (F32.sub fInput fWeight))

/-! ## `MainWindow::sl_startTraining`: the plot-data scan -/

/-- The locals of the scan loop of `sl_startTraining`: the `float` `fGreatest`
and the two plot vectors `x` and `y` (`QVector<double>`; a `double` holds every
`int` and every `float` value exactly, so `y` is kept as binary32 values). -/
structure PlotData where
  fGreatest : F32
  x : List ℚ
  y : List F32
  deriving DecidableEq

/-- One iteration of `for (int i=0; i < iCycles; i++)`: `x[i] = i;`
`y[i] = m_vErrors[i];` `if(fGreatest < m_vErrors[i]) fGreatest = m_vErrors[i];`.
The read `m_vErrors[i]` is `none` when `i` is out of bounds. -/
def scanBody (m_vErrors : List F32) (st : PlotData) (i : Nat) : Option PlotData :=
  match m_vErrors[i]? with
  | none => none
  | some e =>
    some { fGreatest := if F32.lt st.fGreatest e then e else st.fGreatest,
           x := st.x.set i (i : ℚ),
           y := st.y.set i e }

/-- The part of `sl_startTraining` after `TrainFromData` returned `m_vErrors`:
`iCycles = m_vErrors.size()`, `fGreatest = m_vErrors[0]`, the vectors
`x(iCycles), y(iCycles)` (zero-initialised), then the scan loop.  `none` stands
for an out-of-bounds read of `m_vErrors`. -/
def plotScan (m_vErrors : List F32) : Option PlotData :=
  let iCycles := m_vErrors.length
  match m_vErrors[0]? with
  | none => none
  | some fGreatest =>
    (List.range iCycles).foldlM (scanBody m_vErrors)
      { fGreatest := fGreatest, x := List.replicate iCycles 0,
        y := List.replicate iCycles (F32.finite 0) }

/-- The points handed to `graph(0)->setData(x, y)`. -/
def plotPoints (p : PlotData) : List (ℚ × F32) :=
  List.zip p.x p.y

/-- Loop invariant of the scan after `k` iterations over `errs`. -/
def ScanInv (errs : List F32) (k : Nat) (st : PlotData) : Prop :=
  st.x.length = errs.length ∧ st.y.length = errs.length ∧
  st.fGreatest ∈ errs ∧
  (∀ j, j < k → st.x[j]? = some (j : ℚ) ∧ st.y[j]? = errs[j]?) ∧
  ((∀ e ∈ errs, e ≠ F32.nan) →
    ∀ j e, j < k → errs[j]? = some e → F32.le e st.fGreatest = true)

/-! ## Partitioning of the neurons over the devices -/

/-- Modelled from the spec: the number of neurons device `k` receives when `N`
neurons are split over `D` devices; the code that builds the per-device
`SplittedNetExport` slices is not part of the sources.  The spec: "when N is
not evenly divisible by D, the first (N mod D) devices receive one extra
neuron". -/
def partSize (N D k : Nat) : Nat :=
  N / D + (if k < N % D then 1 else 0)

/-- Modelled from the spec: the partitioning loop, which is not part of the
sources.  Starting at neuron id `start` and device `dev`, each of the next
`count` devices is assigned the contiguous range `[start, start + size)` of
neuron ids, and the following device starts where this one stops. -/
def partitionLoop (N D : Nat) : Nat → Nat → Nat → List (Nat × Nat)
  | 0, _, _ => []
  | count + 1, dev, start =>
    (start, start + partSize N D dev) ::
      partitionLoop N D count (dev + 1) (start + partSize N D dev)

/-- Modelled from the spec: the ranges `[start, stop)` of neuron ids of the
`D` devices, in device order ("assign each device a contiguous,
non-overlapping range of neuron ids such that the ranges cover [0, N) exactly
once"); the partitioning code is not part of the sources. -/
def partitionNeurons (N D : Nat) : List (Nat × Nat) :=
  partitionLoop N D D 0 0

/-- The neuron id `i` lies in the range `r = [r.1, r.2)`. -/
def inRange (r : Nat × Nat) (i : Nat) : Prop :=
  r.1 ≤ i ∧ i < r.2

instance (r : Nat × Nat) (i : Nat) : Decidable (inRange r i) := by
  unfold inRange; infer_instance

/-- Closed form of the first neuron id of device `k`. -/
def partStart (N D k : Nat) : Nat :=
  k * (N / D) + min k (N % D)

/-! ## `gpgpu/SOMExport.h`: BMU candidates and their merge -/

/-- The class `BMUExport` of `SOMExport.h`: `int iBMUID`, `int iDeviceID` and
the position vector `dvBMUPos` of the winning neuron. -/
structure BMUExport where
  iBMUID : Int
  iDeviceID : Int
  dvBMUPos : List ℚ
  deriving DecidableEq

/-- Modelled from the spec: the distance of a BMU candidate to the input, the
"squared Euclidean distance from the input to [the] neuron's weight/position
vector", accumulated with `spowAmXpY_functor`; the distance computation of the
merge is not part of the sources. -/
def bmuDistance (input : List ℚ) (b : BMUExport) : ℚ :=
  (List.zip input b.dvBMUPos).foldl (fun acc p => spowAmXpY_functor p.1 p.2 acc) 0

/-- Modelled from the spec: candidate `c` replaces the current best `best`
when it is strictly closer to the input, or equally close with a lower neuron
id ("minimal distance across devices", "tie-break: lowest neuron id"); the
merge code is not part of the sources. -/
def bmuBetter (input : List ℚ) (c best : BMUExport) : Bool :=
  decide (bmuDistance input c < bmuDistance input best) ||
    (decide (bmuDistance input c = bmuDistance input best) && decide (c.iBMUID < best.iBMUID))

/-- Modelled from the spec: the host-side merge of the per-device BMU
candidates, which is not part of the sources: "the host selects the global BMU
as the `BMUExport` with minimal distance across devices (tie-break as in
§4.3)".  One pass over the candidates keeps the best one seen so far; without
candidates there is no BMU. -/
def mergeBMU (input : List ℚ) : List BMUExport → Option BMUExport
  | [] => none
  | c :: cs => some (cs.foldl (fun best d => if bmuBetter input d best then d else best) c)

/-- The order the merge selects by: closer to the input, or equally close with
a neuron id that is not higher. -/
def bmuLe (input : List ℚ) (a b : BMUExport) : Prop :=
  bmuDistance input a < bmuDistance input b ∨
    (bmuDistance input a = bmuDistance input b ∧ a.iBMUID ≤ b.iBMUID)

/-! ## The training loop -/

/-- Modelled from the spec: `TrainFromData(maxCycles, targetError)`, whose
body is not part of the sources (only its callers are).  The spec:
"trainFromData(maxCycles, targetError) → sequence of per-epoch error values
(finite, length ≤ maxCycles; trainer stops early once the epoch error drops
below targetError)".  One epoch over the attached training set is the
function `epoch`, from the network state to the updated state and the epoch
error; every epoch appends its error, and the loop ends after `maxCycles`
epochs or right after an epoch whose error is below `targetError`. -/
def TrainFromData {Net : Type} (epoch : Net → Net × ℚ) (net : Net) (maxCycles : Nat)
    (targetError : ℚ) : List ℚ :=
  match maxCycles, net with
  | 0, _ => []
  | cycles + 1, net =>
    if (epoch net).2 < targetError then [(epoch net).2]
    else (epoch net).2 :: TrainFromData epoch (epoch net).1 cycles targetError

/-- A sample epoch function: the state is the current error, and every epoch
halves it. -/
def halvingEpoch (e : ℚ) : ℚ × ℚ :=
  (e / 2, e)

/-! ## Persistence -/

/-- The layer kind tags used by the example (`ANN::ANLayerInput`,
`ANN::ANLayerHidden`, `ANN::ANLayerOutput`). -/
inductive LayerKind where
  | ANLayerInput
  | ANLayerHidden
  | ANLayerOutput
  deriving DecidableEq

/-- Modelled from the spec: a layer descriptor, "kind + size per layer"; the
layer classes are not part of the sources. -/
structure LayerDesc where
  kind : LayerKind
  size : Nat
  deriving DecidableEq

/-- Modelled from the spec: an edge, the "ordered pair (source neuron id,
target neuron id) spanning two adjacent layers" with its weight; neuron ids are
unique within their layer, so the key also names the layer boundary
(`boundary` is the index of the source layer).  The edge class is not part of
the sources. -/
structure Edge where
  boundary : Nat
  source : Nat
  target : Nat
  weight : ℚ
  deriving DecidableEq

/-- Modelled from the spec: the persisted state of a network, "the Network's
global hyperparameters (learning rate, momentum, weight decay,
transfer-function selector)", its ordered layers and its edges; the network
classes are not part of the sources. -/
structure Network where
  learningRate : ℚ
  momentum : ℚ
  weightDecay : ℚ
  transfFunction : Nat
  layers : List LayerDesc
  edges : List Edge
  deriving DecidableEq

/-- One word of a persisted file: an integer field or a float field. -/
inductive Word where
  | int (n : Nat)
  | real (q : ℚ)
  deriving DecidableEq

/-- The format/version marker that opens a persisted file. -/
def formatVersion : Nat := 1

/-- The integer written for a layer kind. -/
def kindCode : LayerKind → Nat
  | .ANLayerInput => 0
  | .ANLayerHidden => 1
  | .ANLayerOutput => 2

/-- The layer kind read from an integer; other integers are rejected. -/
def kindOfCode : Nat → Option LayerKind
  | 0 => some .ANLayerInput
  | 1 => some .ANLayerHidden
  | 2 => some .ANLayerOutput
  | _ => none

/-- The words of one layer descriptor: kind, size. -/
def writeLayer (l : LayerDesc) : List Word :=
  [.int (kindCode l.kind), .int l.size]

/-- The words of one edge: its key (layer boundary, source, target), then its
weight. -/
def writeEdge (e : Edge) : List Word :=
  [.int e.boundary, .int e.source, .int e.target, .real e.weight]

/-- Modelled from the spec: the export stream, whose code is not part of the
sources.  "Export serializes, in a fixed order: a format/version marker, all
hyperparameters, the layer list (kind + size per layer), and every edge weight
keyed by its (source, target) pair". -/
def serialize (net : Network) : List Word :=
  [.int formatVersion, .real net.learningRate, .real net.momentum, .real net.weightDecay,
    .int net.transfFunction, .int net.layers.length]
    ++ (net.layers.flatMap writeLayer
    ++ (Word.int net.edges.length :: net.edges.flatMap writeEdge))

/-- Reads `n` layer descriptors; fails on short data, on a word of the wrong
type and on an unknown kind. -/
def readLayers : Nat → List Word → Option (List LayerDesc × List Word)
  | 0, ws => some ([], ws)
  | n + 1, .int k :: .int sz :: ws =>
    match kindOfCode k with
    | none => none
    | some kind =>
      match readLayers n ws with
      | none => none
      | some (ls, rest) => some ({ kind := kind, size := sz } :: ls, rest)
  | _ + 1, _ => none

/-- Reads `n` edges; fails on short data and on a word of the wrong type. -/
def readEdges : Nat → List Word → Option (List Edge × List Word)
  | 0, ws => some ([], ws)
  | n + 1, .int b :: .int s :: .int t :: .real w :: ws =>
    match readEdges n ws with
    | none => none
    | some (es, rest) => some ({ boundary := b, source := s, target := t, weight := w } :: es, rest)
  | _ + 1, _ => none

/-- The number of neurons of layer `i`, when there is such a layer. -/
def layerSize (layers : List LayerDesc) (i : Nat) : Option Nat :=
  (layers[i]?).map (fun l => l.size)

/-- An edge agrees with the declared layers: it spans the adjacent layers
`boundary` and `boundary + 1`, and its endpoints are neurons of these layers. -/
def edgeFits (layers : List LayerDesc) (e : Edge) : Bool :=
  match layerSize layers e.boundary, layerSize layers (e.boundary + 1) with
  | some n, some m => decide (e.source < n) && decide (e.target < m)
  | _, _ => false

/-- Modelled from the spec: the import from a stream, whose code is not part
of the sources.  "Import reconstructs topology and weights from that stream";
"truncated/short data, or structurally inconsistent counts ... fail", and on
failure no network is produced.  Data after the last edge is rejected as
well. -/
def deserialize : List Word → Option Network
  | .int v :: .real lr :: .real mo :: .real wd :: .int tf :: .int nLayers :: ws =>
    if v = formatVersion then
      match readLayers nLayers ws with
      | some (layers, .int nEdges :: ws2) =>
        match readEdges nEdges ws2 with
        | some (edges, []) =>
          if edges.all (edgeFits layers) then
            some { learningRate := lr, momentum := mo, weightDecay := wd,
                   transfFunction := tf, layers := layers, edges := edges }
          else none
        | _ => none
      | _ => none
    else none
  | _ => none

/-- The storage: what each path holds, if anything readable. -/
abbrev Storage := String → Option (List Word)

/-- Modelled from the spec: `ExpToFS(path)` (`exportToStorage`), whose code is
not part of the sources: the export stream of the network becomes the content
of `path`. -/
def ExpToFS (fs : Storage) (net : Network) (path : String) : Storage :=
  fun p => if p = path then some (serialize net) else fs p

/-- Modelled from the spec: `ImpFromFS(path)` (`importFromStorage`), whose code
is not part of the sources: fails on an unreadable path, otherwise imports from
the content of `path`. -/
def ImpFromFS (fs : Storage) (path : String) : Option Network :=
  match fs path with
  | none => none
  | some ws => deserialize ws

/-- The weight of the edge from neuron `s` of layer `b` to neuron `t` of layer
`b + 1`, when the network has such an edge. -/
def edgeWeight (net : Network) (b s t : Nat) : Option ℚ :=
  (net.edges.find? (fun e => decide (e.boundary = b ∧ e.source = s ∧ e.target = t))).map
    (fun e => e.weight)

/-- Every edge of the network spans two adjacent layers of the network and
connects neurons of these layers (the data model's invariant on edges). -/
def Network.WellFormed (net : Network) : Prop :=
  ∀ e ∈ net.edges, edgeFits net.layers e = true

instance (net : Network) : Decidable net.WellFormed := by
  unfold Network.WellFormed; infer_instance

/-- The bipartite edge set `connectLayers` creates between layer `b` with `n`
neurons and layer `b + 1` with `m` neurons, all weights set to `w`. -/
def connectEdges (b n m : Nat) (w : ℚ) : List Edge :=
  (List.range n).flatMap (fun s => (List.range m).map (fun t =>
    { boundary := b, source := s, target := t, weight := w }))

/-- The topology of the example `BPNetCPU.cpp`: 3 input, 32 hidden and 6
output neurons, consecutive layers fully connected, with the example's
hyperparameters; the weights are placeholders (`w1` on the first boundary,
`w2` on the second). -/
def exampleNet (w1 w2 : ℚ) : Network :=
  { learningRate := 75 / 1000, momentum := 0, weightDecay := 0, transfFunction := 0,
    layers := [⟨.ANLayerInput, 3⟩, ⟨.ANLayerHidden, 32⟩, ⟨.ANLayerOutput, 6⟩],
    edges := connectEdges 0 3 32 w1 ++ connectEdges 1 32 6 w2 }

/-! ## `MainWindow::sl_startTraining`: the calls issued to the network -/

/-- The values `sl_startTraining` reads from the training dialog
`m_pTrainingDial`: `getMaxCycles()`, `getMaxError()`, `getLearningRate()`,
`getMomentum()`, `getWeightDecay()` and `getTransfFunct()`. -/
structure TrainingForm where
  getMaxCycles : Int
  getMaxError : ℚ
  getLearningRate : ℚ
  getMomentum : ℚ
  getWeightDecay : ℚ
  getTransfFunct : String
  deriving DecidableEq

/-- A call `sl_startTraining` issues on `m_pANNet`, with its arguments; `TS`
is the type of training-set pointers and `TF` the type of resolved transfer
functions. -/
inductive NetCall (TS TF : Type) where
  | SetLearningRate (v : ℚ)
  | SetMomentum (v : ℚ)
  | SetWeightDecay (v : ℚ)
  | SetTransfFunction (f : TF)
  | SetTrainingSet (ts : Option TS)
  | TrainFromData (iCycles : Int) (fTolerance : ℚ)
  deriving DecidableEq

/-- The function `MainWindow::sl_startTraining` up to and including the call
of `TrainFromData`, as the network it addresses and the calls it issues on it,
in order.  `m_pANNet` is the window's current network pointer (`none` for
`NULL`), `sceneNet` what `m_pViewer->getScene()->getANNet()` returns, `ts` what
`m_pInputDial->getTrainingSet()` returns, and `resolve` stands for
`ANN::Functions::ResolveTransfFByName`, which the sources do not contain.
The local `fMaxError` is read from the dialog and not used afterwards.  When
no network is available the function returns without any call (`none`). -/
def sl_startTraining {Net TS TF : Type} (resolve : String → TF) (dial : TrainingForm)
    (m_pANNet sceneNet : Option Net) (ts : Option TS) : Option (Net × List (NetCall TS TF)) :=
  let iCycles := dial.getMaxCycles
  let _fMaxError := dial.getMaxError
  let fLearningRate := dial.getLearningRate
  let fMomentum := dial.getMomentum
  let fWeightDecay := dial.getWeightDecay
  let sTFunct := dial.getTransfFunct
  let m_pTrainingSet := ts
  let m_pANNet := match m_pANNet with
    | none => sceneNet
    | some net => some net
  match m_pANNet with
  | none => none
  | some net =>
    some (net,
      [.SetLearningRate fLearningRate,
       .SetMomentum fMomentum,
       .SetWeightDecay fWeightDecay,
       .SetTransfFunction (resolve sTFunct),
       .SetTrainingSet m_pTrainingSet,
       .TrainFromData iCycles (1 / 1000)])

/-- A sample dialog state: 10000 cycles, maximal error `1/100`, and the
example's learning rate, momentum and weight decay. -/
def sampleDial : TrainingForm :=
  { getMaxCycles := 10000, getMaxError := 1 / 100, getLearningRate := 75 / 1000,
    getMomentum := 0, getWeightDecay := 0, getTransfFunct := "tanh" }

end ANNet

namespace ANNet

/-! ## Functor theorems -/

theorem foldl_spow_add {ι : Type} (l : List ι) (a x : ι → ℚ) (acc : ℚ) :
    l.foldl (fun y i => spowAmXpY_functor (a i) (x i) y) acc
      = acc + (l.map (fun i => (a i - x i) ^ 2)).sum := by
  induction l generalizing acc with
  | nil => simp
  | cons i l ih =>
    simp only [List.foldl_cons, List.map_cons, List.sum_cons]
    rw [ih]
    unfold spowAmXpY_functor
    ring

/-- C1: `hebbian_functor lr x` applied to `(w, h)` returns
`w + lr * h * (x - w)`, the SOM update rule
`weight += learningRate * neighborhood * (input - weight)`. -/
theorem hebbian_functor_update (lr x w h : ℚ) :
    hebbian_functor lr x w h = w + lr * h * (x - w) := by
  unfold hebbian_functor
  ring

/-- C2: folding `spowAmXpY_functor (a i)` over the pairs `(x i, accumulator)`
for the `n` components, starting from accumulator `0`, yields the squared
Euclidean distance `∑ i, (a i - x i)^2`. -/
theorem distanceFold_eq_sq_dist {n : Nat} (a x : Fin n → ℚ) :
    distanceFold a x 0 = ∑ i : Fin n, (a i - x i) ^ 2 := by
  unfold distanceFold
  rw [foldl_spow_add, zero_add, Fin.sum_univ_def]

/-- C8: `sAXpY_functor a` applied to `(x, y)` returns `a*x + y`, which is
`sAX_functor a` applied to `x` (namely `a*x`) plus `y`. -/
theorem sAXpY_eq_sAX_add (a x y : ℚ) :
    sAXpY_functor a x y = a * x + y ∧ sAX_functor a x = a * x ∧
      sAXpY_functor a x y = sAX_functor a x + y :=
  ⟨rfl, rfl, rfl⟩

/-- C8 (evaluation): the two functors at `a = 3`, `x = 2`, `y = 5`. -/
theorem sAXpY_eval : sAXpY_functor 3 2 5 = 11 ∧ sAX_functor 3 2 = 6 := by
  constructor <;> norm_num [sAXpY_functor, sAX_functor]

/-- C9 (amended): in exact arithmetic, when `0 ≤ lr*h ≤ 1`, the weight `w'`
returned by `hebbian_functor lr x w h` is the convex combination
`(1 - lr*h)*w + lr*h*x`, lies between `w` and `x`, and satisfies
`|x - w'| = (1 - lr*h)*|x - w| ≤ |x - w|`; with `h = 0` the weight is
unchanged, and with `lr*h = 1` it becomes the input. -/
theorem hebbian_functor_convex (lr x w h : ℚ) (h0 : 0 ≤ lr * h) (h1 : lr * h ≤ 1) :
    hebbian_functor lr x w h = (1 - lr * h) * w + lr * h * x ∧
    min w x ≤ hebbian_functor lr x w h ∧
    hebbian_functor lr x w h ≤ max w x ∧
    |x - hebbian_functor lr x w h| = (1 - lr * h) * |x - w| ∧
    |x - hebbian_functor lr x w h| ≤ |x - w| ∧
    hebbian_functor lr x w 0 = w ∧
    (lr * h = 1 → hebbian_functor lr x w h = x) := by
  have hc : hebbian_functor lr x w h = (1 - lr * h) * w + lr * h * x := by
    unfold hebbian_functor; ring
  have h1' : 0 ≤ 1 - lr * h := by linarith
  have habs : |x - hebbian_functor lr x w h| = (1 - lr * h) * |x - w| := by
    have : x - hebbian_functor lr x w h = (1 - lr * h) * (x - w) := by
      rw [hc]; ring
    rw [this, abs_mul, abs_of_nonneg h1']
  refine ⟨hc, ?_, ?_, habs, ?_, ?_, ?_⟩
  · rw [hc]
    rcases le_total w x with hwx | hwx
    · rw [min_eq_left hwx]
      nlinarith [mul_nonneg h0 (sub_nonneg.mpr hwx)]
    · rw [min_eq_right hwx]
      nlinarith [mul_nonneg h1' (sub_nonneg.mpr hwx)]
  · rw [hc]
    rcases le_total w x with hwx | hwx
    · rw [max_eq_right hwx]
      nlinarith [mul_nonneg h1' (sub_nonneg.mpr hwx)]
    · rw [max_eq_left hwx]
      nlinarith [mul_nonneg h0 (sub_nonneg.mpr hwx)]
  · rw [habs]
    have := abs_nonneg (x - w)
    nlinarith [mul_nonneg h0 this]
  · unfold hebbian_functor; ring
  · intro he
    rw [hc, he]; ring

/-- C9 (witness): learning rate `1/2`, influence `1/2`, weight `0`, input `4`. -/
theorem hebbian_functor_convex_witness :
    (0 : ℚ) ≤ 1 / 2 * (1 / 2) ∧ (1 / 2 * (1 / 2) : ℚ) ≤ 1 ∧
    hebbian_functor (1 / 2) 4 0 (1 / 2) = (1 - 1 / 2 * (1 / 2)) * 0 + 1 / 2 * (1 / 2) * 4 ∧
    |4 - hebbian_functor (1 / 2) 4 0 (1 / 2)| ≤ |(4 : ℚ) - 0| :=
  ⟨by norm_num, by norm_num,
   (hebbian_functor_convex (1 / 2) 4 0 (1 / 2) (by norm_num) (by norm_num)).1,
   (hebbian_functor_convex (1 / 2) 4 0 (1 / 2) (by norm_num) (by norm_num)).2.2.2.2.1⟩

set_option exponentiation.threshold 1024 in
set_option maxRecDepth 100000 in
/-- C9 (counterexample): in binary32 the update overshoots.  With `lr = 1`,
`h = 1` (so `lr*h = 1`), input `x = 1` and weight `w = 2^27`, the difference
`x - w` rounds to `-2^27` and the functor returns `0`, which is not the input
and lies below both `w` and `x`; with `h = 0`, `x = 3e38` and `w = -3e38` the
difference overflows and the functor returns NaN instead of `w`.  In exact
arithmetic the first update returns the input `1`. -/
theorem hebbian_functor_f32_overshoot :
    F32.mul (F32.ofInt 1) (F32.ofInt 1) = F32.ofInt 1 ∧
    F32.sub (F32.ofInt 1) (F32.ofInt (2 ^ 27)) = F32.ofInt (-(2 ^ 27)) ∧
    hebbian_functor_f32 (F32.ofInt 1) (F32.ofInt 1) (F32.ofInt (2 ^ 27)) (F32.ofInt 1)
      = F32.ofInt 0 ∧
    F32.ofInt 0 ≠ F32.ofInt 1 ∧
    F32.lt (F32.ofInt 0) (F32.ofInt 1) = true ∧
    F32.lt (F32.ofInt 0) (F32.ofInt (2 ^ 27)) = true ∧
    F32.mul (F32.ofInt 1) (F32.ofInt 0) = F32.ofInt 0 ∧
    F32.sub (F32.ofInt (3 * 10 ^ 38)) (F32.ofInt (-(3 * 10 ^ 38))) = F32.inf false ∧
    hebbian_functor_f32 (F32.ofInt 1) (F32.ofInt (3 * 10 ^ 38)) (F32.ofInt (-(3 * 10 ^ 38)))
      (F32.ofInt 0) = F32.nan ∧
    F32.nan ≠ F32.ofInt (-(3 * 10 ^ 38)) ∧
    hebbian_functor 1 1 (2 ^ 27) 1 = 1 := by
  refine ⟨by decide, by decide, by decide, by decide, by decide, by decide, by decide,
    by decide, by decide, by decide, ?_⟩
  norm_num [hebbian_functor]

/-- C7: each of the five `sm13` neighborhood functors built from `sigmaT`
returns its kernel evaluated at `(sqrt dist, sigmaT)`; the result depends on
`dist` only through the grid distance `sqrt dist`, so two applications with
equal grid distance and equal `sigmaT` return equal results. -/
theorem sm13_functors_kernel_at_sqrt {F : Type} (K : NhoodFunctions F) (sigmaT dist : F) :
    (sm13bubble_functor K sigmaT dist = K.fcn_bubble_nhood (K.sqrt dist) sigmaT ∧
     sm13gaussian_functor K sigmaT dist = K.fcn_gaussian_nhood (K.sqrt dist) sigmaT ∧
     sm13cut_gaussian_functor K sigmaT dist = K.fcn_cutgaussian_nhood (K.sqrt dist) sigmaT ∧
     sm13mexican_functor K sigmaT dist = K.fcn_mexican_nhood (K.sqrt dist) sigmaT ∧
     sm13epanechicov_functor K sigmaT dist
       = K.fcn_epanechicov_nhood (K.sqrt dist) sigmaT) ∧
    (∀ sigmaT2 dist2 : F, K.sqrt dist2 = K.sqrt dist → sigmaT2 = sigmaT →
      sm13bubble_functor K sigmaT2 dist2 = sm13bubble_functor K sigmaT dist ∧
      sm13gaussian_functor K sigmaT2 dist2 = sm13gaussian_functor K sigmaT dist ∧
      sm13cut_gaussian_functor K sigmaT2 dist2 = sm13cut_gaussian_functor K sigmaT dist ∧
      sm13mexican_functor K sigmaT2 dist2 = sm13mexican_functor K sigmaT dist ∧
      sm13epanechicov_functor K sigmaT2 dist2 = sm13epanechicov_functor K sigmaT dist) := by
  refine ⟨⟨rfl, rfl, rfl, rfl, rfl⟩, ?_⟩
  intro sigmaT2 dist2 hd hs
  subst hs
  simp only [sm13bubble_functor, sm13gaussian_functor, sm13cut_gaussian_functor,
    sm13mexican_functor, sm13epanechicov_functor, hd, and_self]

/-- C7 (witness): with the integer kernels, squared grid distance `9` and
spread `5`, the bubble functor is the bubble kernel at grid distance `3`, and
the squared distances `9` and `10` (same integer root) give equal results. -/
theorem sm13_functors_kernel_at_sqrt_witness :
    natKernels.sqrt 10 = natKernels.sqrt 9 ∧
    sm13bubble_functor natKernels 5 9 = natKernels.fcn_bubble_nhood 3 5 ∧
    sm13bubble_functor natKernels 5 10 = sm13bubble_functor natKernels 5 9 :=
  ⟨by decide, by decide,
   ((sm13_functors_kernel_at_sqrt natKernels 5 9).2 5 10 (by decide) rfl).1⟩

/-! ## binary32 comparisons -/

theorem F32.le_refl (a : F32) (ha : a ≠ F32.nan) : F32.le a a = true := by
  cases a with
  | finite k => simp [F32.le]
  | inf n => cases n <;> simp [F32.le]
  | nan => exact absurd rfl ha

theorem F32.le_of_lt (a b : F32) (h : F32.lt a b = true) : F32.le a b = true := by
  cases a <;> cases b <;> simp_all [F32.lt, F32.le]
  omega

theorem F32.le_of_not_lt (a b : F32) (ha : a ≠ F32.nan) (hb : b ≠ F32.nan)
    (h : F32.lt a b = false) : F32.le b a = true := by
  cases a <;> cases b <;> simp_all [F32.lt, F32.le]
  rename_i x y
  cases x <;> cases y <;> simp_all

theorem F32.le_trans (a b c : F32) (hab : F32.le a b = true) (hbc : F32.le b c = true) :
    F32.le a c = true := by
  cases a <;> cases b <;> cases c <;> simp_all [F32.le]
  · omega
  · rename_i x y z
    cases x <;> cases y <;> cases z <;> simp_all

/-! ## The plot-data scan of `sl_startTraining` -/

theorem scanBody_inv (errs : List F32) (k : Nat) (st : PlotData) (hk : k < errs.length)
    (hinv : ScanInv errs k st) :
    ∃ st2, scanBody errs st k = some st2 ∧ ScanInv errs (k + 1) st2 := by
  obtain ⟨hx, hy, hg, hxy, hle⟩ := hinv
  have hek : errs[k]? = some errs[k] := List.getElem?_eq_getElem hk
  refine ⟨{ fGreatest := if F32.lt st.fGreatest errs[k] then errs[k] else st.fGreatest,
             x := st.x.set k (k : ℚ), y := st.y.set k errs[k] },
    by simp only [scanBody, hek], ?_⟩
  refine ⟨by simp [hx], by simp [hy], ?_, ?_, ?_⟩
  · show (if F32.lt st.fGreatest errs[k] then errs[k] else st.fGreatest) ∈ errs
    split
    · exact List.getElem_mem hk
    · exact hg
  · intro j hj
    show (st.x.set k (k : ℚ))[j]? = some (j : ℚ) ∧ (st.y.set k errs[k])[j]? = errs[j]?
    rcases Nat.lt_succ_iff_lt_or_eq.mp hj with hlt | heq
    · have hne : k ≠ j := by omega
      rw [List.getElem?_set_ne hne, List.getElem?_set_ne hne]
      exact hxy j hlt
    · subst heq
      rw [List.getElem?_set_self (by omega), List.getElem?_set_self (by omega)]
      exact ⟨rfl, hek.symm⟩
  · intro hnn j e hj hje
    show F32.le e (if F32.lt st.fGreatest errs[k] then errs[k] else st.fGreatest) = true
    have hgn : st.fGreatest ≠ F32.nan := hnn _ hg
    have hkn : errs[k] ≠ F32.nan := hnn _ (List.getElem_mem hk)
    rcases Nat.lt_succ_iff_lt_or_eq.mp hj with hlt | heq
    · have h1 := hle hnn j e hlt hje
      split
      · rename_i hlt2
        exact F32.le_trans _ _ _ h1 (F32.le_of_lt _ _ hlt2)
      · exact h1
    · subst heq
      rw [hek] at hje
      cases hje
      split
      · exact F32.le_refl _ hkn
      · rename_i hnlt
        exact F32.le_of_not_lt _ _ hgn hkn (by simpa using hnlt)

theorem scan_foldlM_inv (errs : List F32) (init : PlotData) (hinit : ScanInv errs 0 init) :
    ∀ k, k ≤ errs.length →
      ∃ st, (List.range k).foldlM (scanBody errs) init = some st ∧ ScanInv errs k st := by
  intro k
  induction k with
  | zero => intro _; exact ⟨init, rfl, hinit⟩
  | succ k ih =>
    intro hk
    obtain ⟨st, hst, hinv⟩ := ih (by omega)
    obtain ⟨st2, hst2, hinv2⟩ := scanBody_inv errs k st (by omega) hinv
    refine ⟨st2, ?_, hinv2⟩
    rw [List.range_succ, List.foldlM_append, hst]
    simpa using hst2

/-- C10 (amended): for a non-empty error sequence the scan of
`sl_startTraining` completes, `fGreatest` is an element of the sequence, `x` is
`0, 1, …, size-1`, `y` is the sequence itself, so the plotted points are
exactly `(i, m_vErrors[i])`; when no element of the sequence is NaN,
`fGreatest` is the maximum (`m_vErrors[i] <= fGreatest` for every element); on
the empty sequence the initial read `m_vErrors[0]` is out of bounds. -/
theorem plotScan_greatest (m_vErrors : List F32) (hne : m_vErrors ≠ []) :
    (∃ p, plotScan m_vErrors = some p ∧
      p.fGreatest ∈ m_vErrors ∧
      ((∀ e ∈ m_vErrors, e ≠ F32.nan) → ∀ e ∈ m_vErrors, F32.le e p.fGreatest = true) ∧
      p.x = (List.range m_vErrors.length).map (fun (i : Nat) => (i : ℚ)) ∧
      p.y = m_vErrors ∧
      plotPoints p = m_vErrors.enum.map (fun (ie : Nat × F32) => ((ie.1 : ℚ), ie.2))) ∧
    plotScan [] = none := by
  refine ⟨?_, rfl⟩
  obtain ⟨e0, rest, rfl⟩ := List.exists_cons_of_ne_nil hne
  have hinit : ScanInv (e0 :: rest) 0
      { fGreatest := e0, x := List.replicate (e0 :: rest).length 0,
        y := List.replicate (e0 :: rest).length (F32.finite 0) } :=
    ⟨by simp, by simp, by simp, fun j hj => absurd hj (Nat.not_lt_zero j),
      fun _ j e hj => absurd hj (Nat.not_lt_zero j)⟩
  obtain ⟨p, hp, hx, hy, hg, hxy, hle⟩ :=
    scan_foldlM_inv (e0 :: rest) _ hinit (e0 :: rest).length (le_refl _)
  have hpx : p.x = (List.range (e0 :: rest).length).map (fun (i : Nat) => (i : ℚ)) := by
    apply List.ext_getElem?
    intro j
    by_cases hj : j < (e0 :: rest).length
    · rw [(hxy j hj).1, List.getElem?_map, List.getElem?_range hj]
      rfl
    · rw [List.getElem?_eq_none (by omega), List.getElem?_eq_none (by simp; simpa using hj)]
  have hpy : p.y = e0 :: rest := by
    apply List.ext_getElem?
    intro j
    by_cases hj : j < (e0 :: rest).length
    · exact (hxy j hj).2
    · rw [List.getElem?_eq_none (by omega), List.getElem?_eq_none (by omega)]
  refine ⟨p, ?_, hg, ?_, hpx, hpy, ?_⟩
  · simpa [plotScan] using hp
  · intro hnn e he
    obtain ⟨j, hj, hje⟩ := List.getElem_of_mem he
    exact hle hnn j e hj (by rw [List.getElem?_eq_getElem hj, hje])
  · unfold plotPoints
    rw [hpx, hpy]
    apply List.ext_getElem?
    intro j
    by_cases hj : j < (e0 :: rest).length
    · have h1 : j < ((List.range (e0 :: rest).length).map (fun (i : Nat) => (i : ℚ))).length := by
        simpa using hj
      have h2 : j < (List.zip ((List.range (e0 :: rest).length).map (fun (i : Nat) => (i : ℚ)))
          (e0 :: rest)).length := by
        simp only [List.length_zip, List.length_map, List.length_range]; omega
      rw [List.getElem?_eq_getElem h2, List.getElem?_map, List.getElem?_enum,
        List.getElem?_eq_getElem hj]
      simp
    · rw [List.getElem?_eq_none, List.getElem?_eq_none]
      · simp only [List.length_map, List.enum_length]; omega
      · simp only [List.length_zip, List.length_map, List.length_range]; omega

set_option exponentiation.threshold 1024 in
/-- C10 (witness): the error sequence `3, 7, 5`, which holds no NaN. -/
theorem plotScan_greatest_witness :
    [F32.ofInt 3, F32.ofInt 7, F32.ofInt 5] ≠ [] ∧
    (∀ e ∈ [F32.ofInt 3, F32.ofInt 7, F32.ofInt 5], e ≠ F32.nan) ∧
    (∃ p, plotScan [F32.ofInt 3, F32.ofInt 7, F32.ofInt 5] = some p ∧
      p.fGreatest ∈ [F32.ofInt 3, F32.ofInt 7, F32.ofInt 5] ∧
      (∀ e ∈ [F32.ofInt 3, F32.ofInt 7, F32.ofInt 5], F32.le e p.fGreatest = true) ∧
      p.y = [F32.ofInt 3, F32.ofInt 7, F32.ofInt 5]) :=
  ⟨by simp, by decide,
   (plotScan_greatest [F32.ofInt 3, F32.ofInt 7, F32.ofInt 5] (by simp)).1.imp
     (fun _ h => ⟨h.1, h.2.1, h.2.2.1 (by decide), h.2.2.2.2.1⟩)⟩

set_option exponentiation.threshold 1024 in
set_option maxRecDepth 100000 in
/-- C10 (counterexample): a NaN in the error sequence defeats the scan.  On
`NaN, 1, 2` it completes with `fGreatest = NaN`, and on `1, NaN, 2` with
`fGreatest = 2`; in both cases "every `m_vErrors[i] <= fGreatest`" is false
(the second component: the test over all elements). -/
theorem plotScan_nan_not_greatest :
    (plotScan [F32.nan, F32.ofInt 1, F32.ofInt 2]).map
        (fun p => (p.fGreatest,
          [F32.nan, F32.ofInt 1, F32.ofInt 2].all (fun e => F32.le e p.fGreatest)))
      = some (F32.nan, false) ∧
    F32.le (F32.ofInt 1) F32.nan = false ∧
    (plotScan [F32.ofInt 1, F32.nan, F32.ofInt 2]).map
        (fun p => (p.fGreatest,
          [F32.ofInt 1, F32.nan, F32.ofInt 2].all (fun e => F32.le e p.fGreatest)))
      = some (F32.ofInt 2, false) ∧
    F32.le F32.nan (F32.ofInt 2) = false := by
  refine ⟨by decide, by decide, by decide, by decide⟩

/-! ## Partitioning -/

theorem partStart_succ (N D k : Nat) :
    partStart N D (k + 1) = partStart N D k + partSize N D k := by
  unfold partStart partSize
  split
  · rw [Nat.min_eq_left (by omega), Nat.min_eq_left (by omega)]; ring
  · rw [Nat.min_eq_right (by omega), Nat.min_eq_right (by omega)]; ring

theorem partStart_zero (N D : Nat) : partStart N D 0 = 0 := by
  simp [partStart]

theorem partStart_last (N D : Nat) (hD : 0 < D) : partStart N D D = N := by
  unfold partStart
  rw [Nat.min_eq_right (Nat.le_of_lt (Nat.mod_lt N hD))]
  exact Nat.div_add_mod N D

theorem partStart_mono (N D : Nat) {j k : Nat} (h : j ≤ k) :
    partStart N D j ≤ partStart N D k := by
  induction k with
  | zero =>
    have : j = 0 := by omega
    subst this; exact le_refl _
  | succ k ih =>
    rcases Nat.lt_succ_iff_lt_or_eq.mp (Nat.lt_succ_of_le h) with hlt | heq
    · have := ih (by omega)
      rw [partStart_succ]; omega
    · subst heq; exact le_refl _

theorem partitionLoop_length (N D : Nat) (count dev start : Nat) :
    (partitionLoop N D count dev start).length = count := by
  induction count generalizing dev start with
  | zero => rfl
  | succ c ih => simp [partitionLoop, ih]

theorem partitionLoop_get (N D : Nat) (count dev j : Nat) (hj : j < count) :
    (partitionLoop N D count dev (partStart N D dev))[j]?
      = some (partStart N D (dev + j), partStart N D (dev + j + 1)) := by
  induction count generalizing dev j with
  | zero => omega
  | succ c ih =>
    cases j with
    | zero => simp [partitionLoop, partStart_succ]
    | succ j =>
      simp only [partitionLoop, List.getElem?_cons_succ]
      rw [← partStart_succ, ih (dev + 1) j (by omega)]
      have : dev + 1 + j = dev + (j + 1) := by omega
      rw [this]

theorem partitionNeurons_get (N D k : Nat) (hk : k < D) :
    (partitionNeurons N D)[k]? = some (partStart N D k, partStart N D (k + 1)) := by
  have h := partitionLoop_get N D D 0 k hk
  rw [partStart_zero] at h
  simpa [partitionNeurons] using h

theorem partitionNeurons_get_inv (N D k : Nat) (r : Nat × Nat)
    (h : (partitionNeurons N D)[k]? = some r) :
    k < D ∧ r = (partStart N D k, partStart N D (k + 1)) := by
  have hk : k < D := by
    have := (List.getElem?_eq_some_iff.mp h).1
    simpa [partitionNeurons, partitionLoop_length] using this
  rw [partitionNeurons_get N D k hk] at h
  exact ⟨hk, (Option.some.inj h).symm⟩

theorem partStart_locate (N D : Nat) (i : Nat) :
    ∀ n, i < partStart N D n → ∃ k, k < n ∧ partStart N D k ≤ i ∧ i < partStart N D (k + 1) := by
  intro n
  induction n with
  | zero => intro h; rw [partStart_zero] at h; omega
  | succ n ih =>
    intro h
    by_cases hn : i < partStart N D n
    · obtain ⟨k, hk, hlo, hhi⟩ := ih hn
      exact ⟨k, by omega, hlo, hhi⟩
    · exact ⟨n, by omega, by omega, h⟩

/-- C3: for `N` neurons and `1 ≤ D ≤ N` devices (so `N > 0`) the partitioning yields
`D` ranges; device `k` gets `N / D` neurons plus one more when `k < N % D`
(never an empty range); the ranges are contiguous from `0` to `N`, pairwise
disjoint, their union is exactly `{0, …, N-1}`, and any two sizes differ by
at most `1`. -/
theorem partitionNeurons_cover (N D : Nat) (hD : 1 ≤ D) (hDN : D ≤ N) :
    (partitionNeurons N D).length = D ∧
    (∀ k, k < D → ∃ r, (partitionNeurons N D)[k]? = some r ∧
        r.2 = r.1 + (N / D + (if k < N % D then 1 else 0)) ∧ r.1 < r.2) ∧
    (∃ r, (partitionNeurons N D)[0]? = some r ∧ r.1 = 0) ∧
    (∀ (k : Nat) (r s : Nat × Nat), (partitionNeurons N D)[k]? = some r →
        (partitionNeurons N D)[k + 1]? = some s → s.1 = r.2) ∧
    (∃ r, (partitionNeurons N D)[D - 1]? = some r ∧ r.2 = N) ∧
    (∀ i, i < N ↔ ∃ r ∈ partitionNeurons N D, inRange r i) ∧
    (∀ (j k : Nat) (r s : Nat × Nat) (i : Nat), (partitionNeurons N D)[j]? = some r →
        (partitionNeurons N D)[k]? = some s → inRange r i → inRange s i → j = k) ∧
    (∀ (j k : Nat) (r s : Nat × Nat), (partitionNeurons N D)[j]? = some r →
        (partitionNeurons N D)[k]? = some s → r.2 - r.1 ≤ s.2 - s.1 + 1) := by
  have hq : 0 < N / D := Nat.div_pos hDN hD
  have hsize : ∀ k, 0 < partSize N D k := fun k => by unfold partSize; omega
  refine ⟨partitionLoop_length N D D 0 0, ?_, ?_, ?_, ?_, ?_, ?_, ?_⟩
  · intro k hk
    refine ⟨_, partitionNeurons_get N D k hk, ?_, ?_⟩
    · show partStart N D (k + 1) = partStart N D k + partSize N D k
      exact partStart_succ N D k
    · show partStart N D k < partStart N D (k + 1)
      have := hsize k
      rw [partStart_succ]; omega
  · exact ⟨_, partitionNeurons_get N D 0 (by omega), partStart_zero N D⟩
  · intro k r s hr hs
    obtain ⟨_, rfl⟩ := partitionNeurons_get_inv N D k r hr
    obtain ⟨_, rfl⟩ := partitionNeurons_get_inv N D (k + 1) s hs
    rfl
  · refine ⟨_, partitionNeurons_get N D (D - 1) (by omega), ?_⟩
    show partStart N D (D - 1 + 1) = N
    rw [Nat.sub_add_cancel hD]
    exact partStart_last N D (by omega)
  · intro i
    constructor
    · intro hi
      rw [← partStart_last N D (by omega : 0 < D)] at hi
      obtain ⟨k, hk, hlo, hhi⟩ := partStart_locate N D i D hi
      exact ⟨_, List.getElem?_mem (partitionNeurons_get N D k hk), hlo, hhi⟩
    · rintro ⟨r, hr, hlo, hhi⟩
      obtain ⟨k, hk⟩ := List.getElem?_of_mem hr
      obtain ⟨hkD, rfl⟩ := partitionNeurons_get_inv N D k r hk
      have := partStart_mono N D (show k + 1 ≤ D by omega)
      rw [partStart_last N D (by omega)] at this
      exact Nat.lt_of_lt_of_le hhi this
  · intro j k r s i hr hs hir his
    obtain ⟨_, rfl⟩ := partitionNeurons_get_inv N D j r hr
    obtain ⟨_, rfl⟩ := partitionNeurons_get_inv N D k s hs
    obtain ⟨hr1, hr2⟩ := hir
    obtain ⟨hs1, hs2⟩ := his
    simp only at hr1 hr2 hs1 hs2
    by_contra hne
    rcases Nat.lt_or_gt_of_ne hne with hlt | hgt
    · have := partStart_mono N D (show j + 1 ≤ k by omega)
      omega
    · have := partStart_mono N D (show k + 1 ≤ j by omega)
      omega
  · intro j k r s hr hs
    obtain ⟨_, rfl⟩ := partitionNeurons_get_inv N D j r hr
    obtain ⟨_, rfl⟩ := partitionNeurons_get_inv N D k s hs
    simp only [partStart_succ, partSize]
    split <;> split <;> omega

/-- C3 (witness): `N = 7` neurons over `D = 3` devices give the ranges
`[0,3)`, `[3,5)`, `[5,7)`. -/
theorem partitionNeurons_cover_witness :
    partitionNeurons 7 3 = [(0, 3), (3, 5), (5, 7)] ∧
    (∀ i, i < 7 ↔ ∃ r ∈ partitionNeurons 7 3, inRange r i) :=
  ⟨by decide,
   (partitionNeurons_cover 7 3 (by decide) (by decide)).2.2.2.2.2.1⟩

/-! ## BMU merge -/

theorem bmuLe_refl (input : List ℚ) (a : BMUExport) : bmuLe input a a :=
  Or.inr ⟨rfl, le_refl _⟩

theorem bmuLe_trans (input : List ℚ) {a b c : BMUExport}
    (hab : bmuLe input a b) (hbc : bmuLe input b c) : bmuLe input a c := by
  unfold bmuLe at *
  rcases hab with h1 | ⟨h1, h1i⟩ <;> rcases hbc with h2 | ⟨h2, h2i⟩
  · exact Or.inl (lt_trans h1 h2)
  · exact Or.inl (h2 ▸ h1)
  · exact Or.inl (h1 ▸ h2)
  · exact Or.inr ⟨h1.trans h2, le_trans h1i h2i⟩

theorem bmuStep_le (input : List ℚ) (best d : BMUExport) :
    bmuLe input (if bmuBetter input d best then d else best) best ∧
    bmuLe input (if bmuBetter input d best then d else best) d := by
  by_cases hb : bmuBetter input d best = true
  · rw [if_pos hb]
    refine ⟨?_, bmuLe_refl input d⟩
    simp only [bmuBetter, Bool.or_eq_true, Bool.and_eq_true, decide_eq_true_eq] at hb
    rcases hb with h | ⟨h, hi⟩
    · exact Or.inl h
    · exact Or.inr ⟨h, le_of_lt hi⟩
  · rw [if_neg hb]
    refine ⟨bmuLe_refl input best, ?_⟩
    simp only [bmuBetter, Bool.or_eq_true, Bool.and_eq_true, decide_eq_true_eq, not_or,
      not_and, not_lt] at hb
    obtain ⟨h1, h2⟩ := hb
    rcases lt_or_eq_of_le h1 with hlt | heq
    · exact Or.inl hlt
    · exact Or.inr ⟨heq, h2 heq.symm⟩

theorem bmuFold_min (input : List ℚ) (cs : List BMUExport) (best : BMUExport) :
    cs.foldl (fun best d => if bmuBetter input d best then d else best) best ∈ best :: cs ∧
    ∀ c ∈ best :: cs,
      bmuLe input (cs.foldl (fun best d => if bmuBetter input d best then d else best) best) c := by
  induction cs generalizing best with
  | nil => exact ⟨by simp, by intro c hc; simp at hc; subst hc; exact bmuLe_refl input _⟩
  | cons d cs ih =>
    obtain ⟨hmem, hle⟩ := ih (if bmuBetter input d best then d else best)
    obtain ⟨hs1, hs2⟩ := bmuStep_le input best d
    simp only [List.foldl_cons]
    refine ⟨?_, ?_⟩
    · rcases List.mem_cons.mp hmem with h | h
      · rw [h]
        split
        · exact List.mem_cons_of_mem _ (List.mem_cons_self _ _)
        · exact List.mem_cons_self _ _
      · exact List.mem_cons_of_mem _ (List.mem_cons_of_mem _ h)
    · intro c hc
      have h0 := hle _ (List.mem_cons_self _ _)
      rcases List.mem_cons.mp hc with h | h
      · subst h; exact bmuLe_trans input h0 hs1
      · rcases List.mem_cons.mp h with h | h
        · subst h; exact bmuLe_trans input h0 hs2
        · exact hle c (List.mem_cons_of_mem _ h)

/-- C4: for a non-empty list of per-device BMU candidates the merge returns
one of the candidates, whose distance to the input is minimal among all
candidates and whose neuron id is the lowest among the candidates at that
minimal distance; any candidate with these two properties has the same
distance and the same neuron id, so the selected BMU is determined by the
candidates. -/
theorem mergeBMU_minimal (input : List ℚ) (cands : List BMUExport) (hne : cands ≠ []) :
    ∃ b, mergeBMU input cands = some b ∧ b ∈ cands ∧
      (∀ c ∈ cands, bmuDistance input b ≤ bmuDistance input c) ∧
      (∀ c ∈ cands, bmuDistance input c = bmuDistance input b → b.iBMUID ≤ c.iBMUID) ∧
      (∀ b2 ∈ cands, (∀ c ∈ cands, bmuDistance input b2 ≤ bmuDistance input c) →
        (∀ c ∈ cands, bmuDistance input c = bmuDistance input b2 → b2.iBMUID ≤ c.iBMUID) →
        bmuDistance input b2 = bmuDistance input b ∧ b2.iBMUID = b.iBMUID) := by
  obtain ⟨c0, cs, rfl⟩ := List.exists_cons_of_ne_nil hne
  obtain ⟨hmem, hle⟩ := bmuFold_min input cs c0
  refine ⟨_, rfl, hmem, ?_, ?_, ?_⟩
  · intro c hc
    rcases hle c hc with h | ⟨h, _⟩
    · exact le_of_lt h
    · exact le_of_eq h
  · intro c hc heq
    rcases hle c hc with h | ⟨_, h⟩
    · exact absurd heq.symm (ne_of_lt h)
    · exact h
  · intro b2 hb2 hmin htie
    have hd : bmuDistance input b2 = bmuDistance input
        (cs.foldl (fun best d => if bmuBetter input d best then d else best) c0) := by
      apply le_antisymm (hmin _ hmem)
      rcases hle b2 hb2 with h | ⟨h, _⟩
      · exact le_of_lt h
      · exact le_of_eq h
    refine ⟨hd, le_antisymm (htie _ hmem hd.symm) ?_⟩
    rcases hle b2 hb2 with h | ⟨_, h⟩
    · exact absurd hd.symm (ne_of_lt h)
    · exact h

/-- C4 (witness): three devices report neurons `4`, `2` and `7`; neurons `4`
and `2` are equidistant from the input `(0, 0)`, and the merge selects neuron
`2`. -/
theorem mergeBMU_minimal_witness :
    mergeBMU [0, 0] [⟨4, 0, [1, 0]⟩, ⟨2, 1, [0, 1]⟩, ⟨7, 2, [2, 2]⟩] = some ⟨2, 1, [0, 1]⟩ ∧
    ∃ b, mergeBMU [0, 0] [⟨4, 0, [1, 0]⟩, ⟨2, 1, [0, 1]⟩, ⟨7, 2, [2, 2]⟩] = some b ∧
      b ∈ ([⟨4, 0, [1, 0]⟩, ⟨2, 1, [0, 1]⟩, ⟨7, 2, [2, 2]⟩] : List BMUExport) ∧
      (∀ c ∈ ([⟨4, 0, [1, 0]⟩, ⟨2, 1, [0, 1]⟩, ⟨7, 2, [2, 2]⟩] : List BMUExport),
        bmuDistance [0, 0] b ≤ bmuDistance [0, 0] c) :=
  ⟨by norm_num [mergeBMU, bmuBetter, bmuDistance, spowAmXpY_functor],
   (mergeBMU_minimal [0, 0] [⟨4, 0, [1, 0]⟩, ⟨2, 1, [0, 1]⟩, ⟨7, 2, [2, 2]⟩] (by simp)).imp
     (fun _ h => ⟨h.1, h.2.1, h.2.2.1⟩)⟩

/-! ## The training loop -/

theorem TrainFromData_length_le {Net : Type} (epoch : Net → Net × ℚ) (targetError : ℚ)
    (maxCycles : Nat) (net : Net) :
    (TrainFromData epoch net maxCycles targetError).length ≤ maxCycles := by
  induction maxCycles generalizing net with
  | zero => simp [TrainFromData]
  | succ c ih =>
    unfold TrainFromData
    split
    · simp
    · simpa using ih (epoch net).1

theorem TrainFromData_prefix_ge {Net : Type} (epoch : Net → Net × ℚ) (targetError : ℚ)
    (maxCycles : Nat) (net : Net) (i : Nat) (e : ℚ)
    (hi : i + 1 < (TrainFromData epoch net maxCycles targetError).length)
    (he : (TrainFromData epoch net maxCycles targetError)[i]? = some e) :
    targetError ≤ e := by
  induction maxCycles generalizing net i with
  | zero => simp [TrainFromData] at hi
  | succ c ih =>
    unfold TrainFromData at hi he
    split at hi
    · simp at hi
    · rename_i hge
      rw [if_neg hge] at he
      cases i with
      | zero =>
        simp only [List.getElem?_cons_zero, Option.some.injEq] at he
        rw [← he]; exact not_lt.mp hge
      | succ j =>
        simp only [List.getElem?_cons_succ] at he
        simp only [List.length_cons] at hi
        exact ih (epoch net).1 j (by omega) he

theorem TrainFromData_early_stop {Net : Type} (epoch : Net → Net × ℚ) (targetError : ℚ)
    (maxCycles : Nat) (net : Net)
    (hlt : (TrainFromData epoch net maxCycles targetError).length < maxCycles) :
    ∃ e, (TrainFromData epoch net maxCycles targetError).getLast? = some e ∧ e < targetError := by
  induction maxCycles generalizing net with
  | zero => omega
  | succ c ih =>
    unfold TrainFromData at hlt ⊢
    split
    · rename_i hb
      exact ⟨_, rfl, hb⟩
    · rename_i hge
      rw [if_neg hge] at hlt
      simp only [List.length_cons] at hlt
      obtain ⟨e, hlast, he⟩ := ih (epoch net).1 (by omega)
      refine ⟨e, ?_, he⟩
      rw [List.getLast?_cons, hlast]
      rfl

/-- C5: `TrainFromData maxCycles targetError` returns a finite error sequence
of length at most `maxCycles`; no element other than the last is below
`targetError`; when the sequence is shorter than `maxCycles` its last element
is below `targetError` (training stopped at the first such epoch); in
particular with `maxCycles = 10000` and `targetError = 0.001`, as in the
example, at most `10000` errors are returned. -/
theorem TrainFromData_errors {Net : Type} (epoch : Net → Net × ℚ) (net : Net)
    (maxCycles : Nat) (targetError : ℚ) :
    (TrainFromData epoch net maxCycles targetError).length ≤ maxCycles ∧
    (∀ (i : Nat) (e : ℚ), i + 1 < (TrainFromData epoch net maxCycles targetError).length →
      (TrainFromData epoch net maxCycles targetError)[i]? = some e → ¬ e < targetError) ∧
    ((TrainFromData epoch net maxCycles targetError).length < maxCycles →
      ∃ e, (TrainFromData epoch net maxCycles targetError).getLast? = some e ∧
        e < targetError) ∧
    (TrainFromData epoch net 10000 (1 / 1000)).length ≤ 10000 :=
  ⟨TrainFromData_length_le epoch targetError maxCycles net,
   fun i e hi he => not_lt.mpr (TrainFromData_prefix_ge epoch targetError maxCycles net i e hi he),
   TrainFromData_early_stop epoch targetError maxCycles net,
   TrainFromData_length_le epoch (1 / 1000) 10000 net⟩

/-- C5 (witness): with an error that starts at `8` and halves every epoch,
`maxCycles = 10` and `targetError = 1`, training returns `8, 4, 2, 1, 1/2`:
it stops after the fifth epoch, the first one below the target. -/
theorem TrainFromData_errors_witness :
    TrainFromData halvingEpoch 8 10 1 = [8, 4, 2, 1, 1 / 2] ∧
    (TrainFromData halvingEpoch 8 10 1).length ≤ 10 ∧
    ((TrainFromData halvingEpoch 8 10 1).length < 10 →
      ∃ e, (TrainFromData halvingEpoch 8 10 1).getLast? = some e ∧ e < 1) :=
  ⟨by norm_num [TrainFromData, halvingEpoch],
   (TrainFromData_errors halvingEpoch 8 10 1).1,
   (TrainFromData_errors halvingEpoch 8 10 1).2.2.1⟩

/-! ## Persistence -/

theorem kindOfCode_kindCode (k : LayerKind) : kindOfCode (kindCode k) = some k := by
  cases k <;> rfl

theorem readLayers_write (ls : List LayerDesc) (rest : List Word) :
    readLayers ls.length (ls.flatMap writeLayer ++ rest) = some (ls, rest) := by
  induction ls with
  | nil => rfl
  | cons l ls ih =>
    have hw : (l :: ls).flatMap writeLayer ++ rest
        = Word.int (kindCode l.kind) :: Word.int l.size :: (ls.flatMap writeLayer ++ rest) := by
      simp [writeLayer]
    rw [hw, List.length_cons]
    simp only [readLayers, kindOfCode_kindCode, ih]

theorem readEdges_write (es : List Edge) (rest : List Word) :
    readEdges es.length (es.flatMap writeEdge ++ rest) = some (es, rest) := by
  induction es with
  | nil => rfl
  | cons e es ih =>
    have hw : (e :: es).flatMap writeEdge ++ rest
        = Word.int e.boundary :: Word.int e.source :: Word.int e.target :: Word.real e.weight ::
            (es.flatMap writeEdge ++ rest) := by
      simp [writeEdge]
    rw [hw, List.length_cons]
    simp only [readEdges, ih]

theorem deserialize_serialize (net : Network) (hwf : net.WellFormed) :
    deserialize (serialize net) = some net := by
  have hall : net.edges.all (edgeFits net.layers) = true := by
    rw [List.all_eq_true]; exact hwf
  have hE := readEdges_write net.edges []
  rw [List.append_nil] at hE
  simp only [serialize, List.cons_append, List.nil_append, deserialize, if_true,
    readLayers_write, hE, hall]

theorem connectEdges_mem (b n m : Nat) (w : ℚ) (e : Edge) (he : e ∈ connectEdges b n m w) :
    e.boundary = b ∧ e.source < n ∧ e.target < m := by
  simp only [connectEdges, List.mem_flatMap, List.mem_range, List.mem_map] at he
  obtain ⟨s, hs, t, ht, rfl⟩ := he
  exact ⟨rfl, hs, ht⟩

theorem exampleNet_wellFormed (w1 w2 : ℚ) : (exampleNet w1 w2).WellFormed := by
  intro e he
  simp only [exampleNet, List.mem_append] at he
  rcases he with h | h
  · obtain ⟨hb, hs, ht⟩ := connectEdges_mem _ _ _ _ e h
    simp [exampleNet, edgeFits, layerSize, hb, hs, ht]
  · obtain ⟨hb, hs, ht⟩ := connectEdges_mem _ _ _ _ e h
    simp [exampleNet, edgeFits, layerSize, hb, hs, ht]

/-- C6: for every network whose edges connect neurons of adjacent layers,
`ExpToFS path` followed by `ImpFromFS path` succeeds and yields a network with
the same ordered layer list (kind and size per layer) and the same weight for
every (source, target) key, hence within every epsilon `≥ 0`; the imported
network is in fact the exported one. -/
theorem ImpFromFS_ExpToFS (fs : Storage) (net : Network) (path : String)
    (hwf : net.WellFormed) :
    ∃ net2, ImpFromFS (ExpToFS fs net path) path = some net2 ∧
      net2.layers = net.layers ∧
      (∀ b s t : Nat, edgeWeight net2 b s t = edgeWeight net b s t) ∧
      (∀ (eps : ℚ) (b s t : Nat) (w w2 : ℚ), 0 ≤ eps → edgeWeight net b s t = some w →
        edgeWeight net2 b s t = some w2 → |w2 - w| ≤ eps) ∧
      net2 = net := by
  refine ⟨net, ?_, rfl, fun _ _ _ => rfl, ?_, rfl⟩
  · simp only [ImpFromFS, ExpToFS, if_true, deserialize_serialize net hwf]
  · intro eps b s t w w2 heps hw hw2
    rw [hw] at hw2
    cases hw2
    simpa using heps

/-- C6 (witness): the example's 3/32/6 network exported to and re-imported
from `"foo.bar"`, starting from an empty storage. -/
theorem ImpFromFS_ExpToFS_witness :
    (exampleNet (1 / 4) (-1 / 2)).WellFormed ∧
    ∃ net2, ImpFromFS (ExpToFS (fun _ => none) (exampleNet (1 / 4) (-1 / 2)) "foo.bar")
        "foo.bar" = some net2 ∧
      net2.layers = [⟨.ANLayerInput, 3⟩, ⟨.ANLayerHidden, 32⟩, ⟨.ANLayerOutput, 6⟩] ∧
      edgeWeight net2 1 31 5 = some (-1 / 2) :=
  ⟨exampleNet_wellFormed _ _,
   (ImpFromFS_ExpToFS (fun _ => none) (exampleNet (1 / 4) (-1 / 2)) "foo.bar"
      (exampleNet_wellFormed _ _)).imp
     (fun net2 h => ⟨h.1, h.2.1, by rw [h.2.2.2.2]; rfl⟩)⟩

/-! ## The calls of `sl_startTraining` -/

/-- C11: when a network is available (the window's own one, or else the
scene's), `sl_startTraining` sets on it the learning rate, momentum and weight
decay read from the dialog and calls `TrainFromData` with the dialog's
max-cycles value and the constant target error `0.001`; replacing the dialog's
max-error value by any other leaves the addressed network and the issued
calls unchanged. -/
theorem sl_startTraining_calls {Net TS TF : Type} (resolve : String → TF)
    (dial : TrainingForm) (m_pANNet sceneNet : Option Net) (ts : Option TS) (net : Net)
    (havail : m_pANNet = some net ∨ (m_pANNet = none ∧ sceneNet = some net)) :
    sl_startTraining resolve dial m_pANNet sceneNet ts
      = some (net,
          [NetCall.SetLearningRate dial.getLearningRate,
           NetCall.SetMomentum dial.getMomentum,
           NetCall.SetWeightDecay dial.getWeightDecay,
           NetCall.SetTransfFunction (resolve dial.getTransfFunct),
           NetCall.SetTrainingSet ts,
           NetCall.TrainFromData dial.getMaxCycles (1 / 1000)]) ∧
    (∀ fMaxError : ℚ,
      sl_startTraining resolve { dial with getMaxError := fMaxError } m_pANNet sceneNet ts
        = sl_startTraining resolve dial m_pANNet sceneNet ts) ∧
    (∀ dial2 : TrainingForm,
      dial2.getMaxCycles = dial.getMaxCycles → dial2.getLearningRate = dial.getLearningRate →
      dial2.getMomentum = dial.getMomentum → dial2.getWeightDecay = dial.getWeightDecay →
      dial2.getTransfFunct = dial.getTransfFunct →
      sl_startTraining resolve dial2 m_pANNet sceneNet ts
        = sl_startTraining resolve dial m_pANNet sceneNet ts) := by
  refine ⟨?_, fun _ => rfl, ?_⟩
  · rcases havail with h | ⟨h, hs⟩
    · subst h; rfl
    · subst h; subst hs; rfl
  · intro dial2 h1 h2 h3 h4 h5
    simp only [sl_startTraining, h1, h2, h3, h4, h5]

/-- C11 (witness): with no network in the window and network `7` in the
scene, the sample dialog (max error `1/100`) and the same dialog with max
error `1/2` both make `sl_startTraining` call `TrainFromData 10000 (1/1000)`
on network `7`. -/
theorem sl_startTraining_calls_witness :
    sl_startTraining (fun s => s.length) sampleDial (none : Option Nat) (some 7) (some 0)
      = some (7,
          [NetCall.SetLearningRate (75 / 1000),
           NetCall.SetMomentum 0,
           NetCall.SetWeightDecay 0,
           NetCall.SetTransfFunction 4,
           NetCall.SetTrainingSet (some (0 : Nat)),
           NetCall.TrainFromData 10000 (1 / 1000)]) ∧
    sl_startTraining (fun s => s.length) { sampleDial with getMaxError := 1 / 2 }
        (none : Option Nat) (some 7) (some (0 : Nat))
      = sl_startTraining (fun s => s.length) sampleDial (none : Option Nat) (some 7)
          (some (0 : Nat)) :=
  ⟨(sl_startTraining_calls (fun s => s.length) sampleDial (none : Option Nat) (some 7)
      (some (0 : Nat)) 7 (Or.inr ⟨rfl, rfl⟩)).1,
   (sl_startTraining_calls (fun s => s.length) sampleDial (none : Option Nat) (some 7)
      (some (0 : Nat)) 7 (Or.inr ⟨rfl, rfl⟩)).2.1 (1 / 2)⟩

end ANNet
